import Mathlib

/-!
Verification of the video-annotator annotation-canvas engine.

The definitions below are a shallow embedding of the renderer code:

* `HistoryState`, `pushHistory`, `undo`, `redo` embed the zustand store in
  `src/renderer/stores/useCanvasStore.ts` (history is an array of snapshot
  strings with a current index starting at `-1`; snapshots are kept abstract
  in a type parameter `α`).
* The drawing-gesture definitions embed the `handleMouseDown` /
  `handleMouseMove` / `handleMouseUp` fabric.js handlers of the annotation
  canvas component, restricted to the geometric and scene-list effects the
  claims are about.
* `createBlurRect` embeds the blur-tool fallback logic, and the export
  definitions embed the crop/multiplier handling of `handleSaveWithOptions`
  in `OverlayView.tsx`.

Coordinates are modelled as rationals: every operation involved
(`Math.abs`, `Math.min`, `Math.max`, additions, subtractions,
multiplications, divisions by two) is exact on the inputs of the claims.
-/

namespace VideoAnnotator

/-! ## History engine: `useCanvasStore.ts` -/

/-- `MAX_HISTORY` from `useCanvasStore.ts`. -/
def MAX_HISTORY : Nat := 50

/-- The store's history fields: `history: string[]` and `historyIndex`,
initialised to `[]` and `-1`.  Snapshots are abstract (`α`); the store only
compares them for equality. -/
structure HistoryState (α : Type) where
  history : List α
  historyIndex : Int
deriving DecidableEq, Repr

/-- JS array indexing `a[i]`: `undefined` (here `none`) when `i` is negative
or past the end. -/
def getAt {α : Type} (l : List α) (i : Int) : Option α :=
  if 0 ≤ i then l[i.toNat]? else none

/-- Initial store state: `history: [], historyIndex: -1`. -/
def initialHistory (α : Type) : HistoryState α := ⟨[], -1⟩

/-- `pushHistory(state)`:
no-op when `history[historyIndex] === state`; otherwise
`history.slice(0, historyIndex + 1)`, append, and if the length exceeds
`MAX_HISTORY` shift off the oldest; `historyIndex` becomes the new last
position. -/
def pushHistory {α : Type} [DecidableEq α] (s : α) (st : HistoryState α) :
    HistoryState α :=
  if getAt st.history st.historyIndex = some s then
    st
  else
    let newHistory := st.history.take (st.historyIndex + 1).toNat ++ [s]
    if newHistory.length > MAX_HISTORY then
      { history := newHistory.drop 1,
        historyIndex := ((newHistory.drop 1).length : Int) - 1 }
    else
      { history := newHistory, historyIndex := (newHistory.length : Int) - 1 }

/-- `undo()`: when `historyIndex <= 0` return `null` and leave the state
alone; otherwise decrement the index and return `history[newIndex] ?? null`.
The returned value is paired with the updated store. -/
def undo {α : Type} (st : HistoryState α) : Option α × HistoryState α :=
  if st.historyIndex ≤ 0 then
    (none, st)
  else
    let newIndex := st.historyIndex - 1
    (getAt st.history newIndex, { st with historyIndex := newIndex })

/-- `redo()`: when `historyIndex >= history.length - 1` return `null` and
leave the state alone; otherwise increment the index and return
`history[newIndex] ?? null`. -/
def redo {α : Type} (st : HistoryState α) : Option α × HistoryState α :=
  if st.historyIndex ≥ (st.history.length : Int) - 1 then
    (none, st)
  else
    let newIndex := st.historyIndex + 1
    (getAt st.history newIndex, { st with historyIndex := newIndex })

/-- States reachable from the initial store by `pushHistory` calls only. -/
inductive PushReachable {α : Type} [DecidableEq α] : HistoryState α → Prop
  | init : PushReachable (initialHistory α)
  | push (s : α) {st : HistoryState α} (h : PushReachable st) :
      PushReachable (pushHistory s st)

/-- States reachable from the initial store by any interleaving of
`pushHistory`, `undo` and `redo`. -/
inductive HReachable {α : Type} [DecidableEq α] : HistoryState α → Prop
  | init : HReachable (initialHistory α)
  | push (s : α) {st : HistoryState α} (h : HReachable st) :
      HReachable (pushHistory s st)
  | undoStep {st : HistoryState α} (h : HReachable st) :
      HReachable (undo st).2
  | redoStep {st : HistoryState α} (h : HReachable st) :
      HReachable (redo st).2

/-! ## Geometry and scene objects for the drawing gesture handlers -/

/-- A pointer position (`canvas.getPointer`). -/
structure Pt where
  x : ℚ
  y : ℚ
deriving DecidableEq, Repr

/-- A fabric rectangle's geometric fields. -/
structure RectGeom where
  left : ℚ
  top : ℚ
  width : ℚ
  height : ℚ
deriving DecidableEq, Repr

/-- Modifier keys read off the mouse event (ctrl plays no role in the
geometry computations the claims are about). -/
structure Modifiers where
  shift : Bool
  alt : Bool
deriving DecidableEq, Repr

/-- Blur styles: `"gaussian" | "mosaic"`. -/
inductive BlurStyle
  | gaussian
  | mosaic
deriving DecidableEq, Repr

/-- An `rgba` fill colour. -/
structure Fill where
  red : Nat
  green : Nat
  blue : Nat
  alpha : ℚ
deriving DecidableEq, Repr

/-- The scene objects the claims mention, tagged like the fabric objects'
`data.type` tags.  Processed blur bitmaps are abstracted to a `Nat` id. -/
inductive SceneObj
  | rectObj (geom : RectGeom) (selectable : Bool)
  | blurImage (processed : Nat) (left top width : ℚ) (style : BlurStyle)
      (intensity : Nat)
  | blurPlaceholder (geom : RectGeom) (fill : Fill) (style : BlurStyle)
      (intensity : Nat)
  | cropOverlayObj (geom : RectGeom)
  | arrowObj (x1 y1 x2 y2 : ℚ)
  | otherObj (id : Nat)
deriving DecidableEq, Repr

/-- `handleMouseMove`, rectangle branch: constrained width/height are
`Math.abs` of the pointer deltas; Shift replaces both by their max; Alt
draws from the center (`left = start.x - w`, doubled dimensions); otherwise
the rect spans from the min corner, except that under Shift the anchor
stays at the start point on each axis, extended towards the pointer. -/
def rectDragGeom (start pointer : Pt) (m : Modifiers) : RectGeom :=
  let cw0 := |pointer.x - start.x|
  let ch0 := |pointer.y - start.y|
  let cw := if m.shift then max cw0 ch0 else cw0
  let ch := if m.shift then max cw0 ch0 else ch0
  if m.alt then
    { left := start.x - cw, top := start.y - ch,
      width := cw * 2, height := ch * 2 }
  else
    { left := if m.shift then (if pointer.x ≥ start.x then start.x else start.x - cw)
              else min start.x pointer.x,
      top := if m.shift then (if pointer.y ≥ start.y then start.y else start.y - ch)
             else min start.y pointer.y,
      width := cw, height := ch }

/-- The mutable refs of the canvas component that a shape gesture touches:
the already-committed objects, `currentObjectRef` (the live preview, drawn
after everything else), `startPointRef` and `isDrawingRef`.  The rendered
canvas object list is `base ++ preview.toList`. -/
structure GestureState where
  base : List SceneObj
  preview : Option SceneObj
  startPt : Option Pt
  isDrawing : Bool
deriving DecidableEq, Repr

/-- The canvas's object list: committed objects with the preview on top. -/
def canvasObjects (st : GestureState) : List SceneObj :=
  st.base ++ st.preview.toList

/-- `handleMouseDown`, rectangle branch: record the start point, set
`isDrawing`, and add a zero-sized non-selectable preview rect at the
pointer. -/
def rectMouseDown (st : GestureState) (p : Pt) : GestureState :=
  { st with preview := some (.rectObj ⟨p.x, p.y, 0, 0⟩ false),
            startPt := some p, isDrawing := true }

/-- `handleMouseMove`, rectangle branch: guarded by
`isDrawingRef && startPointRef && currentObjectRef`; recomputes the preview
geometry from scratch from (start, pointer, modifiers). -/
def rectMouseMove (st : GestureState) (p : Pt) (m : Modifiers) : GestureState :=
  if st.isDrawing then
    match st.startPt, st.preview with
    | some s0, some _ =>
        { st with preview := some (.rectObj (rectDragGeom s0 p m) false) }
    | _, _ => st
  else st

/-- Mark a fabric object selectable (`obj.set({selectable: true, evented: true})`). -/
def setSelectable : SceneObj → SceneObj
  | .rectObj g _ => .rectObj g true
  | o => o

/-- `handleMouseUp` for the rectangle tool: guarded by `isDrawingRef` and
`currentObjectRef`; the preview object is kept in the scene (it was added at
mouse-down and is never removed), made selectable, auto-selected, and the
drawing refs are cleared.  There is no minimum-size check on this path. -/
def rectMouseUp (st : GestureState) : GestureState :=
  if st.isDrawing then
    match st.preview with
    | some obj =>
        { base := st.base ++ [setSelectable obj],
          preview := none, startPt := none, isDrawing := false }
    | none => st
  else st

/-- A whole rectangle-tool drag gesture: mouse-down at `p0`, a sequence of
mouse-moves, then mouse-up. -/
def rectGesture (st : GestureState) (p0 : Pt)
    (moves : List (Pt × Modifiers)) : GestureState :=
  rectMouseUp (moves.foldl (fun s pm => rectMouseMove s pm.1 pm.2)
    (rectMouseDown st p0))

/-! ## Crop overlay exclusivity -/

/-- The module-level `overlayState` fields relevant to crop, together with
the canvas scene. -/
structure OverlayCanvas where
  scene : List SceneObj
  cropOverlay : Option RectGeom
  hasCrop : Bool
deriving DecidableEq, Repr

/-- Fresh canvas: empty scene, no crop. -/
def initialOverlay : OverlayCanvas := ⟨[], none, false⟩

/-- Objects tagged `crop-overlay`. -/
def isCropOverlay : SceneObj → Bool
  | .cropOverlayObj _ => true
  | _ => false

/-- Number of crop-overlay objects in the scene. -/
def cropCount (c : OverlayCanvas) : Nat :=
  (c.scene.filter isCropOverlay).length

/-- A full crop-tool gesture with final preview geometry `g`.
`handleMouseDown`: `if (activeTool === "crop" && overlayState.hasCrop) return;`
— the gesture never starts while a crop exists.  Otherwise, at
`handleMouseUp` the preview is removed and, when both dimensions exceed
10 px, any previously stored `cropOverlay` is removed from the canvas and a
fresh crop overlay is created, stored and added; below the threshold
nothing is committed. -/
def cropGesture (c : OverlayCanvas) (g : RectGeom) : OverlayCanvas :=
  if c.hasCrop then c
  else if g.width > 10 ∧ g.height > 10 then
    let scene1 :=
      match c.cropOverlay with
      | some old => c.scene.erase (.cropOverlayObj old)
      | none => c.scene
    { scene := scene1 ++ [.cropOverlayObj g],
      cropOverlay := some g, hasCrop := true }
  else c

/-- Any other tool committing an object: append to the scene
(`canvas.add`). -/
def addObject (c : OverlayCanvas) (o : SceneObj) : OverlayCanvas :=
  { c with scene := c.scene ++ [o] }

/-- Select-tool deletion of an ordinary object (`canvas.remove`; deletion of
overlay/mask objects is refused by the key handler). -/
def removeObject (c : OverlayCanvas) (o : SceneObj) : OverlayCanvas :=
  { c with scene := c.scene.erase o }

/-- `resetOverlayState(canvas)`: removes the stored crop overlay from the
canvas and clears the crop side-channel fields. -/
def resetOverlayState (c : OverlayCanvas) : OverlayCanvas :=
  { scene :=
      match c.cropOverlay with
      | some old => c.scene.erase (.cropOverlayObj old)
      | none => c.scene,
    cropOverlay := none, hasCrop := false }

/-- Canvas states reachable from a fresh canvas by crop gestures, commits
and deletions of non-crop objects, and overlay resets. -/
inductive CReachable : OverlayCanvas → Prop
  | init : CReachable initialOverlay
  | crop (g : RectGeom) {c : OverlayCanvas} (h : CReachable c) :
      CReachable (cropGesture c g)
  | add {o : SceneObj} (ho : isCropOverlay o = false) {c : OverlayCanvas}
      (h : CReachable c) : CReachable (addObject c o)
  | remove {o : SceneObj} (ho : isCropOverlay o = false) {c : OverlayCanvas}
      (h : CReachable c) : CReachable (removeObject c o)
  | reset {c : OverlayCanvas} (h : CReachable c) :
      CReachable (resetOverlayState c)

/-! ## Blur tool fallback: `createBlurRect` -/

/-- `createBlurRect(x, y, w, h, style, intensity, imageMode, screenCapture)`.

`imageModeActive` stands for `imageMode?.isImageMode && imageMode.imageDataUrl`,
and `imageRegion` for the outcome of the image-mode branch's
`extractImageRegion` + `applyBlurEffect` pipeline: `none` when extraction
returned null or any step threw (the `try/catch` makes both fall through to
the next branch).  `captureActive` and `captureRegion` play the same roles
for the pre-captured screen branch.  When neither branch yields a processed
bitmap, the function returns the semi-transparent
`rgba(128, 128, 128, 0.7)` placeholder rectangle at the requested
geometry. -/
def createBlurRect (x y w h : ℚ) (style : BlurStyle) (intensity : Nat)
    (imageModeActive : Bool) (imageRegion : Option Nat)
    (captureActive : Bool) (captureRegion : Option Nat) : SceneObj :=
  match imageModeActive, imageRegion with
  | true, some p => .blurImage p x y w style intensity
  | _, _ =>
    match captureActive, captureRegion with
    | true, some p => .blurImage p x y w style intensity
    | _, _ =>
        .blurPlaceholder ⟨x, y, w, h⟩ ⟨128, 128, 128, 7/10⟩ style intensity

/-! ## Export: `handleSaveWithOptions` (OverlayView.tsx) -/

/-- The crop bounds side-channel (`overlayState.cropBounds`). -/
structure Bounds where
  left : ℚ
  top : ℚ
  width : ℚ
  height : ℚ
deriving DecidableEq, Repr

/-- The three `toDataURL` call sites of `handleSaveWithOptions`:
image mode (temp canvas at the original image's dimensions), normal mode
with a pre-captured background, and the standard path. -/
inductive SavePath
  | imageMode (origW origH : ℚ)
  | withBackground
  | standard
deriving DecidableEq, Repr

/-- The `multiplier` passed to `toDataURL`: `1` on the image-mode and
with-background paths, `window.devicePixelRatio || 1` on the standard
path. -/
def exportMultiplier (path : SavePath) (dpr : ℚ) : ℚ :=
  match path with
  | .imageMode _ _ => 1
  | .withBackground => 1
  | .standard => if dpr = 0 then 1 else dpr

/-- The region of the canvas that is rasterized.  On the with-background and
standard paths, `exportOptions.left/top/width/height` are set from the crop
bounds exactly when bounds exist with positive width and height; the
image-mode path exports its whole temporary canvas (sized to the original
image) and never consults the crop bounds. -/
def exportRegion (path : SavePath) (bounds : Option Bounds)
    (canvasW canvasH : ℚ) : Bounds :=
  match path with
  | .imageMode ow oh => ⟨0, 0, ow, oh⟩
  | _ =>
    match bounds with
    | some b =>
        if b.width > 0 ∧ b.height > 0 then ⟨b.left, b.top, b.width, b.height⟩
        else ⟨0, 0, canvasW, canvasH⟩
    | none => ⟨0, 0, canvasW, canvasH⟩

/-- Pixel dimensions of the exported raster: the rasterized region's size
scaled by the `toDataURL` multiplier. -/
def outputRasterDims (path : SavePath) (bounds : Option Bounds)
    (dpr canvasW canvasH : ℚ) : ℚ × ℚ :=
  let r := exportRegion path bounds canvasW canvasH
  let m := exportMultiplier path dpr
  (r.width * m, r.height * m)

/-! ## Helper lemmas about the history engine -/

theorem getAt_append_singleton {α : Type} (l : List α) (s : α) :
    getAt (l ++ [s]) (l.length : Int) = some s := by
  simp [getAt, List.getElem?_concat_length]

theorem undo_history_eq {α : Type} (st : HistoryState α) :
    (undo st).2.history = st.history := by
  unfold undo; split <;> rfl

theorem redo_history_eq {α : Type} (st : HistoryState α) :
    (redo st).2.history = st.history := by
  unfold redo; split <;> rfl

theorem pushReachable_index {α : Type} [DecidableEq α] {st : HistoryState α}
    (h : PushReachable st) :
    st.historyIndex = (st.history.length : Int) - 1 := by
  induction h with
  | init => simp [initialHistory]
  | push s h ih =>
      unfold pushHistory
      split
      · exact ih
      · dsimp only
        split <;> simp

theorem hReachable_index_bounds {α : Type} [DecidableEq α] {st : HistoryState α}
    (h : HReachable st) :
    -1 ≤ st.historyIndex ∧ st.historyIndex < (st.history.length : Int) := by
  induction h with
  | init => simp [initialHistory]
  | @push s st h ih =>
      unfold pushHistory
      split
      · exact ih
      · dsimp only
        split <;> · simp; omega
  | @undoStep st h ih =>
      unfold undo
      split
      · exact ih
      · next hc => dsimp only; simp; omega
  | @redoStep st h ih =>
      unfold redo
      split
      · exact ih
      · next hc =>
          dsimp only
          simp only [not_le] at hc
          constructor <;> [omega; omega]

theorem hReachable_length_le {α : Type} [DecidableEq α] {st : HistoryState α}
    (h : HReachable st) :
    st.history.length ≤ MAX_HISTORY := by
  induction h with
  | init => simp [initialHistory]
  | @push s st h ih =>
      unfold pushHistory
      split
      · exact ih
      · dsimp only
        split
        · next =>
            simp only [List.length_drop, List.length_append, List.length_take,
              List.length_cons, List.length_nil]
            omega
        · next hng =>
            simp only [not_lt] at hng
            simpa using hng
  | @undoStep st h ih => rw [undo_history_eq]; exact ih
  | @redoStep st h ih => rw [redo_history_eq]; exact ih

/-- After any `pushHistory s`, the snapshot at the current index is `s`. -/
theorem getAt_pushHistory_head {α : Type} [DecidableEq α] (s : α)
    (st : HistoryState α) :
    getAt (pushHistory s st).history (pushHistory s st).historyIndex = some s := by
  unfold pushHistory
  split
  · next heq => exact heq
  · dsimp only
    split
    · next hgt =>
        set t := st.history.take (st.historyIndex + 1).toNat with ht
        have htlen : 1 ≤ t.length := by
          simp only [List.length_append, List.length_cons, List.length_nil,
            MAX_HISTORY] at hgt
          omega
        have hdrop : (t ++ [s]).drop 1 = t.drop 1 ++ [s] :=
          List.drop_append_of_le_length htlen
        simp only [hdrop]
        have hlen : (((t.drop 1 ++ [s]).length : Int) - 1) = ((t.drop 1).length : Int) := by
          simp
        rw [hlen]
        exact getAt_append_singleton _ s
    · next =>
        set t := st.history.take (st.historyIndex + 1).toNat with ht
        have hlen : (((t ++ [s]).length : Int) - 1) = (t.length : Int) := by simp
        simp only [hlen]
        exact getAt_append_singleton t s

theorem getAt_isSome {α : Type} {l : List α} {i : Int} (h0 : 0 ≤ i)
    (h1 : i < (l.length : Int)) : ∃ x, getAt l i = some x := by
  simp only [getAt, if_pos h0]
  have hlt : i.toNat < l.length := by omega
  exact ⟨l[i.toNat], List.getElem?_eq_getElem hlt⟩

theorem undo_of_le {α : Type} (st : HistoryState α) (h : st.historyIndex ≤ 0) :
    undo st = (none, st) := by
  unfold undo; rw [if_pos h]

theorem undo_of_pos {α : Type} (st : HistoryState α) (h : 0 < st.historyIndex) :
    undo st = (getAt st.history (st.historyIndex - 1),
      { st with historyIndex := st.historyIndex - 1 }) := by
  unfold undo; rw [if_neg (by omega)]

theorem redo_of_ge {α : Type} (st : HistoryState α)
    (h : (st.history.length : Int) - 1 ≤ st.historyIndex) :
    redo st = (none, st) := by
  unfold redo; rw [if_pos (by omega)]

theorem redo_of_lt {α : Type} (st : HistoryState α)
    (h : st.historyIndex < (st.history.length : Int) - 1) :
    redo st = (getAt st.history (st.historyIndex + 1),
      { st with historyIndex := st.historyIndex + 1 }) := by
  unfold redo; rw [if_neg (by omega)]

/-- If the current head equals the pushed snapshot, `pushHistory` is the
identity on the store. -/
theorem pushHistory_head_noop {α : Type} [DecidableEq α] {st : HistoryState α}
    {s : α} (hs : getAt st.history st.historyIndex = some s) :
    pushHistory s st = st := by
  unfold pushHistory; rw [if_pos hs]

/-! ## Claim theorems: history engine -/

/-- C1: for every store state reachable by a sequence of `pushHistory` calls,
`undo()` followed by `redo()` restores `historyIndex` to its pre-undo value,
and `history[historyIndex]` after the redo equals the snapshot that was
current immediately before the undo. -/
theorem undo_redo_roundtrip {α : Type} [DecidableEq α] {st : HistoryState α}
    (h : PushReachable st) :
    (redo (undo st).2).2.historyIndex = st.historyIndex ∧
    getAt (redo (undo st).2).2.history (redo (undo st).2).2.historyIndex =
      getAt st.history st.historyIndex := by
  have hidx := pushReachable_index h
  by_cases hle : st.historyIndex ≤ 0
  · rw [undo_of_le st hle, redo_of_ge st (by omega)]
    exact ⟨rfl, rfl⟩
  · push_neg at hle
    rw [undo_of_pos st hle]
    have h2 : ({ st with historyIndex := st.historyIndex - 1 } :
        HistoryState α).historyIndex <
        (({ st with historyIndex := st.historyIndex - 1 } :
          HistoryState α).history.length : Int) - 1 := by
      dsimp only
      omega
    rw [redo_of_lt _ h2]
    dsimp only
    constructor
    · omega
    · congr 1
      omega

/-- C1 witness: the round-trip at the concrete store obtained by pushing the
snapshots `1` then `2`. -/
theorem undo_redo_roundtrip_witness :
    (redo (undo (pushHistory 2 (pushHistory 1 (initialHistory ℕ)))).2).2.historyIndex
      = (pushHistory 2 (pushHistory 1 (initialHistory ℕ))).historyIndex ∧
    getAt (redo (undo (pushHistory 2 (pushHistory 1 (initialHistory ℕ)))).2).2.history
        (redo (undo (pushHistory 2 (pushHistory 1 (initialHistory ℕ)))).2).2.historyIndex
      = getAt (pushHistory 2 (pushHistory 1 (initialHistory ℕ))).history
          (pushHistory 2 (pushHistory 1 (initialHistory ℕ))).historyIndex :=
  undo_redo_roundtrip (PushReachable.push 2 (PushReachable.push 1 PushReachable.init))

/-- C3: the history never holds more than `MAX_HISTORY = 50` entries on any
reachable store state, and pushing a distinct snapshot onto a full history
(50 entries, index at the head) evicts the oldest entry (index 0), appends
the new snapshot, and leaves `historyIndex` at the new last position. -/
theorem history_bounded_and_eviction {α : Type} [DecidableEq α] :
    (∀ st : HistoryState α, HReachable st → st.history.length ≤ MAX_HISTORY) ∧
    (∀ (st : HistoryState α) (s : α),
      st.history.length = MAX_HISTORY →
      st.historyIndex = (MAX_HISTORY : Int) - 1 →
      getAt st.history st.historyIndex ≠ some s →
      (pushHistory s st).history = st.history.drop 1 ++ [s] ∧
      (pushHistory s st).historyIndex = (MAX_HISTORY : Int) - 1 ∧
      (pushHistory s st).history.length = MAX_HISTORY) := by
  refine ⟨fun st h => hReachable_length_le h, ?_⟩
  intro st s hlen hidx hne
  unfold pushHistory
  rw [if_neg hne]
  dsimp only
  have htake : st.history.take (st.historyIndex + 1).toNat = st.history := by
    rw [hidx]
    have h50 : ((MAX_HISTORY : Int) - 1 + 1).toNat = MAX_HISTORY := by
      simp [MAX_HISTORY]
    rw [h50, ← hlen, List.take_length]
  rw [htake]
  have hgt : (st.history ++ [s]).length > MAX_HISTORY := by
    simp [hlen]
  rw [if_pos hgt]
  have h1 : 1 ≤ st.history.length := by
    rw [hlen]; simp [MAX_HISTORY]
  have hdrop : (st.history ++ [s]).drop 1 = st.history.drop 1 ++ [s] :=
    List.drop_append_of_le_length h1
  refine ⟨hdrop, ?_, ?_⟩
  · rw [hdrop]
    simp only [List.length_append, List.length_drop, List.length_cons,
      List.length_nil, hlen]
    simp [MAX_HISTORY]
  · rw [hdrop]
    simp only [List.length_append, List.length_drop, List.length_cons,
      List.length_nil, hlen]
    simp [MAX_HISTORY]

/-- C3 witness: the bound at a concrete reachable store, and the eviction
behaviour at a concrete full 50-entry history. -/
theorem history_bounded_and_eviction_witness :
    (pushHistory 0 (initialHistory ℕ)).history.length ≤ MAX_HISTORY ∧
    (pushHistory 999 (⟨List.range MAX_HISTORY, 49⟩ : HistoryState ℕ)).history
      = (List.range MAX_HISTORY).drop 1 ++ [999] := by
  constructor
  · exact history_bounded_and_eviction.1 _ (HReachable.push 0 HReachable.init)
  · exact (history_bounded_and_eviction.2
      (⟨List.range MAX_HISTORY, 49⟩ : HistoryState ℕ) 999
      (by decide) (by decide) (by decide)).1

/-- C6: `pushHistory s` is a no-op whenever `s` equals the current head
`history[historyIndex]`, and consequently pushing the same snapshot twice in
a row leaves exactly the store state of pushing it once. -/
theorem pushHistory_noop_and_idempotent {α : Type} [DecidableEq α]
    (st : HistoryState α) (s : α) :
    (getAt st.history st.historyIndex = some s → pushHistory s st = st) ∧
    pushHistory s (pushHistory s st) = pushHistory s st :=
  ⟨fun hs => pushHistory_head_noop hs,
   pushHistory_head_noop (getAt_pushHistory_head s st)⟩

/-- C6 witness: a concrete store whose head is the pushed snapshot, and the
double push at a concrete store. -/
theorem pushHistory_noop_and_idempotent_witness :
    (pushHistory 7 (pushHistory 7 (initialHistory ℕ)) = pushHistory 7 (initialHistory ℕ)) ∧
    (pushHistory 7 (pushHistory 7 (initialHistory ℕ)) = pushHistory 7 (initialHistory ℕ)) :=
  ⟨(pushHistory_noop_and_idempotent (pushHistory 7 (initialHistory ℕ)) 7).1 (by decide),
   (pushHistory_noop_and_idempotent (initialHistory ℕ) 7).2⟩

/-- C7: on any reachable store state, `undo()` returns `null` exactly when
`historyIndex ≤ 0` and otherwise decrements the index and returns the
snapshot stored at the new index; `redo()` returns `null` exactly when
`historyIndex ≥ history.length - 1` and otherwise increments the index and
returns the snapshot stored at the new index. -/
theorem undo_redo_guards {α : Type} [DecidableEq α] {st : HistoryState α}
    (h : HReachable st) :
    ((undo st).1 = none ↔ st.historyIndex ≤ 0) ∧
    (0 < st.historyIndex →
      (undo st).2.historyIndex = st.historyIndex - 1 ∧
      ∃ x, (undo st).1 = some x ∧
        getAt st.history (st.historyIndex - 1) = some x) ∧
    ((redo st).1 = none ↔ (st.history.length : Int) - 1 ≤ st.historyIndex) ∧
    (st.historyIndex < (st.history.length : Int) - 1 →
      (redo st).2.historyIndex = st.historyIndex + 1 ∧
      ∃ x, (redo st).1 = some x ∧
        getAt st.history (st.historyIndex + 1) = some x) := by
  obtain ⟨hlo, hhi⟩ := hReachable_index_bounds h
  refine ⟨⟨?_, ?_⟩, ?_, ⟨?_, ?_⟩, ?_⟩
  · intro hnone
    by_contra hpos
    push_neg at hpos
    rw [undo_of_pos st hpos] at hnone
    obtain ⟨x, hx⟩ := getAt_isSome (l := st.history) (i := st.historyIndex - 1) (by omega) (by omega)
    rw [hx] at hnone
    exact Option.noConfusion hnone
  · intro hle
    rw [undo_of_le st hle]
  · intro hpos
    rw [undo_of_pos st hpos]
    obtain ⟨x, hx⟩ := getAt_isSome (l := st.history) (i := st.historyIndex - 1) (by omega) (by omega)
    exact ⟨rfl, x, hx, hx⟩
  · intro hnone
    by_contra hlt
    push_neg at hlt
    rw [redo_of_lt st hlt] at hnone
    obtain ⟨x, hx⟩ := getAt_isSome (l := st.history) (i := st.historyIndex + 1) (by omega) (by omega)
    rw [hx] at hnone
    exact Option.noConfusion hnone
  · intro hge
    rw [redo_of_ge st hge]
  · intro hlt
    rw [redo_of_lt st hlt]
    obtain ⟨x, hx⟩ := getAt_isSome (l := st.history) (i := st.historyIndex + 1) (by omega) (by omega)
    exact ⟨rfl, x, hx, hx⟩

/-- C7 witness: the undo guard at the concrete reachable store holding the
snapshots `[1, 2]`. -/
theorem undo_redo_guards_witness :
    (undo (pushHistory 2 (pushHistory 1 (initialHistory ℕ)))).1 = none ↔
      (pushHistory 2 (pushHistory 1 (initialHistory ℕ))).historyIndex ≤ 0 :=
  (undo_redo_guards
    (HReachable.push 2 (HReachable.push 1 HReachable.init))).1

/-- C10: `undo()` and `redo()` never modify the history array itself — after
either call the history list is unchanged (same length, same snapshot at
every position); only `historyIndex` changes. -/
theorem undo_redo_frame {α : Type} (st : HistoryState α) :
    (undo st).2.history = st.history ∧ (redo st).2.history = st.history :=
  ⟨undo_history_eq st, redo_history_eq st⟩

/-! ## Helper lemmas about rectangle gestures -/

/-- One fold step of the mouse-move handler on a live drag. -/
theorem rectMouseMove_live {st : GestureState} {s0 : Pt} {o : SceneObj}
    (hd : st.isDrawing = true) (hs : st.startPt = some s0)
    (hp : st.preview = some o) (p : Pt) (m : Modifiers) :
    rectMouseMove st p m =
      { st with preview := some (.rectObj (rectDragGeom s0 p m) false) } := by
  unfold rectMouseMove
  rw [hd, hs, hp]
  simp

/-- Folding any sequence of mouse-moves keeps the drag live: the base,
start point and drawing flag are unchanged and some preview object
remains. -/
theorem foldMoves_live (ms : List (Pt × Modifiers)) :
    ∀ (st : GestureState) (s0 : Pt),
      st.isDrawing = true → st.startPt = some s0 → st.preview.isSome →
      ∃ o, (ms.foldl (fun s pm => rectMouseMove s pm.1 pm.2) st) =
        { base := st.base, preview := some o, startPt := some s0,
          isDrawing := true } := by
  induction ms with
  | nil =>
      intro st s0 hd hs hp
      obtain ⟨o, ho⟩ := Option.isSome_iff_exists.mp hp
      exact ⟨o, by cases st; simp_all⟩
  | cons pm ms ih =>
      intro st s0 hd hs hp
      obtain ⟨o, ho⟩ := Option.isSome_iff_exists.mp hp
      rw [List.foldl_cons, rectMouseMove_live hd hs ho]
      exact ih _ s0 hd hs (by simp)

/-- A rectangle-tool gesture whose last mouse-move is at `p` with modifiers
`m` always commits exactly one selectable rectangle, whose geometry is
`rectDragGeom p0 p m`, regardless of its size. -/
theorem rectGesture_concat (b : List SceneObj) (p0 : Pt)
    (ms : List (Pt × Modifiers)) (p : Pt) (m : Modifiers) :
    canvasObjects (rectGesture ⟨b, none, none, false⟩ p0 (ms ++ [(p, m)])) =
      b ++ [SceneObj.rectObj (rectDragGeom p0 p m) true] := by
  unfold rectGesture
  rw [List.foldl_append]
  obtain ⟨o, ho⟩ := foldMoves_live ms (rectMouseDown ⟨b, none, none, false⟩ p0)
    p0 rfl rfl (by simp [rectMouseDown])
  rw [ho, List.foldl_cons, List.foldl_nil]
  simp [rectMouseDown, rectMouseMove, rectMouseUp, canvasObjects, setSelectable]

/-! ## Claim theorems: rectangle tool gestures -/

/-- C2 counterexample: a completed rectangle-tool drag from (0,0) to (5,5)
— resulting width and height both 5, below the alleged 10 px threshold —
commits one rectangle scene object (of size 5×5), not zero: the rectangle
mouse-up path has no minimum-size check. -/
theorem rect_small_drag_cex :
    canvasObjects (rectGesture ⟨[], none, none, false⟩ ⟨0, 0⟩
        [(⟨5, 5⟩, ⟨false, false⟩)]) =
      [SceneObj.rectObj ⟨0, 0, 5, 5⟩ true] ∧
    (canvasObjects (rectGesture ⟨[], none, none, false⟩ ⟨0, 0⟩
        [(⟨5, 5⟩, ⟨false, false⟩)])).length ≠ 0 := by
  have h0 := rectGesture_concat [] ⟨0, 0⟩ [] ⟨5, 5⟩ ⟨false, false⟩
  have hg : rectDragGeom ⟨0, 0⟩ ⟨5, 5⟩ ⟨false, false⟩ =
      (⟨0, 0, 5, 5⟩ : RectGeom) := by
    unfold rectDragGeom
    norm_num
  rw [hg] at h0
  simp only [List.nil_append] at h0
  exact ⟨h0, by rw [h0]; simp⟩

/-- C2 (amended): a completed rectangle-tool drag always commits exactly one
final rectangle object, at the geometry of the last mouse-move, regardless
of the resulting width and height; the 10 px minimum-size threshold does not
apply to the rectangle tool (in the code it guards only the spotlight, blur,
crop and arrow commits). -/
theorem rect_commit_no_threshold (b : List SceneObj) (p0 : Pt)
    (ms : List (Pt × Modifiers)) (p : Pt) (m : Modifiers) :
    canvasObjects (rectGesture ⟨b, none, none, false⟩ p0 (ms ++ [(p, m)])) =
      b ++ [SceneObj.rectObj (rectDragGeom p0 p m) true] :=
  rectGesture_concat b p0 ms p m

/-- C5: with Shift held, a rectangle-tool drag whose pointer deltas are 120
and 80 commits a square of side 120 (the larger dimension), not a 120×80
rectangle. -/
theorem shift_drag_commits_square (b : List SceneObj) (p0 : Pt)
    (ms : List (Pt × Modifiers)) (p : Pt)
    (hw : |p.x - p0.x| = 120) (hh : |p.y - p0.y| = 80) :
    canvasObjects (rectGesture ⟨b, none, none, false⟩ p0
        (ms ++ [(p, ⟨true, false⟩)])) =
      b ++ [SceneObj.rectObj (rectDragGeom p0 p ⟨true, false⟩) true] ∧
    (rectDragGeom p0 p ⟨true, false⟩).width = 120 ∧
    (rectDragGeom p0 p ⟨true, false⟩).height = 120 := by
  refine ⟨rectGesture_concat b p0 ms p ⟨true, false⟩, ?_, ?_⟩ <;>
  · unfold rectDragGeom
    rw [hw, hh]
    norm_num

/-- C5 witness: the concrete Shift drag from (0,0) to (120,80). -/
theorem shift_drag_commits_square_witness :
    canvasObjects (rectGesture ⟨[], none, none, false⟩ ⟨0, 0⟩
        [(⟨120, 80⟩, ⟨true, false⟩)]) =
      [] ++ [SceneObj.rectObj (rectDragGeom ⟨0, 0⟩ ⟨120, 80⟩ ⟨true, false⟩) true] ∧
    (rectDragGeom ⟨0, 0⟩ ⟨120, 80⟩ ⟨true, false⟩).width = 120 ∧
    (rectDragGeom ⟨0, 0⟩ ⟨120, 80⟩ ⟨true, false⟩).height = 120 := by
  have h := shift_drag_commits_square [] ⟨0, 0⟩ [] ⟨120, 80⟩
    (by norm_num) (by norm_num)
  simpa using h

/-! ## Helper lemmas about the crop overlay -/

theorem filter_erase_of_filter_singleton {l : List SceneObj} {x : SceneObj}
    (h : l.filter isCropOverlay = [x]) :
    (l.erase x).filter isCropOverlay = [] := by
  induction l with
  | nil => simp at h
  | cons a t ih =>
      by_cases pa : isCropOverlay a = true
      · rw [List.filter_cons_of_pos pa] at h
        obtain ⟨hax, ht⟩ := List.cons_eq_cons.mp h
        subst hax
        rw [List.erase_cons_head]
        exact ht
      · rw [List.filter_cons_of_neg pa] at h
        have hax : a ≠ x := by
          intro hax
          subst hax
          have : a ∈ List.filter isCropOverlay t := by
            rw [h]; exact List.mem_singleton_self a
          exact pa (List.of_mem_filter this)
        rw [List.erase_cons_tail]
        · rw [List.filter_cons_of_neg pa]
          exact ih h
        · simp [hax]

theorem filter_erase_noncrop {x : SceneObj} (hx : isCropOverlay x = false)
    (l : List SceneObj) :
    (l.erase x).filter isCropOverlay = l.filter isCropOverlay := by
  induction l with
  | nil => rfl
  | cons a t ih =>
      by_cases hax : a = x
      · subst hax
        rw [List.erase_cons_head, List.filter_cons_of_neg (by simp [hx])]
      · rw [List.erase_cons_tail (by simp [hax])]
        by_cases pa : isCropOverlay a = true
        · rw [List.filter_cons_of_pos pa, List.filter_cons_of_pos pa, ih]
        · rw [List.filter_cons_of_neg pa, List.filter_cons_of_neg pa]
          exact ih

/-- The crop invariant tying the side-channel fields to the scene: the crop
flag mirrors the stored overlay, and the scene holds exactly the stored
overlay's crop object (or none). -/
def CropInv (c : OverlayCanvas) : Prop :=
  (c.hasCrop = true ↔ c.cropOverlay.isSome) ∧
  (∀ o, c.cropOverlay = some o →
    c.scene.filter isCropOverlay = [SceneObj.cropOverlayObj o]) ∧
  (c.cropOverlay = none → c.scene.filter isCropOverlay = [])

theorem creachable_inv {c : OverlayCanvas} (h : CReachable c) : CropInv c := by
  induction h with
  | init =>
      exact ⟨by simp [initialOverlay], fun o ho => by simp [initialOverlay] at ho,
        fun _ => rfl⟩
  | @crop g c h ih =>
      obtain ⟨ih1, ih2, ih3⟩ := ih
      unfold cropGesture
      by_cases hc : c.hasCrop = true
      · rw [hc]; simpa using ⟨ih1, ih2, ih3⟩
      · have hcf : c.hasCrop = false := by simp [Bool.not_eq_true] at hc; exact hc
        rw [hcf]
        simp only [Bool.false_eq_true, if_false]
        by_cases hg : g.width > 10 ∧ g.height > 10
        · rw [if_pos hg]
          have hnone : c.cropOverlay = none := by
            cases hov : c.cropOverlay with
            | none => rfl
            | some o =>
                exfalso
                have : c.hasCrop = true := ih1.mpr (by simp [hov])
                rw [hcf] at this
                exact Bool.noConfusion this
          rw [hnone]
          dsimp only
          refine ⟨by simp, fun o ho => ?_, by simp⟩
          simp only [Option.some.injEq] at ho
          subst ho
          rw [List.filter_append, ih3 hnone]
          simp [isCropOverlay]
        · rw [if_neg hg]
          exact ⟨ih1, ih2, ih3⟩
  | @add o ho c h ih =>
      obtain ⟨ih1, ih2, ih3⟩ := ih
      unfold addObject
      refine ⟨ih1, fun x hx => ?_, fun hx => ?_⟩
      · dsimp only
        rw [List.filter_append, ih2 x hx]
        simp [ho]
      · dsimp only
        rw [List.filter_append, ih3 hx]
        simp [ho]
  | @remove o ho c h ih =>
      obtain ⟨ih1, ih2, ih3⟩ := ih
      unfold removeObject
      refine ⟨ih1, fun x hx => ?_, fun hx => ?_⟩
      · dsimp only
        rw [filter_erase_noncrop ho, ih2 x hx]
      · dsimp only
        rw [filter_erase_noncrop ho, ih3 hx]
  | @reset c h ih =>
      obtain ⟨ih1, ih2, ih3⟩ := ih
      unfold resetOverlayState
      refine ⟨by simp, fun x hx => by simp at hx, fun _ => ?_⟩
      cases hov : c.cropOverlay with
      | none =>
          dsimp only
          exact ih3 hov
      | some o =>
          dsimp only
          exact filter_erase_of_filter_singleton (ih2 o hov)

/-! ## Claim theorems: crop exclusivity -/

/-- C4 counterexample: with a 50×50 crop already committed, a second
crop-tool gesture with bounds (5,5,60,60) leaves exactly one crop region,
but it is the old one — the pointer-down is ignored while a crop exists, so
the new crop is never installed, contradicting "(the new one)". -/
theorem crop_second_gesture_cex :
    ((cropGesture (cropGesture initialOverlay ⟨0, 0, 50, 50⟩)
        ⟨5, 5, 60, 60⟩).scene.filter isCropOverlay =
      [SceneObj.cropOverlayObj ⟨0, 0, 50, 50⟩]) ∧
    SceneObj.cropOverlayObj ⟨5, 5, 60, 60⟩ ∉
      (cropGesture (cropGesture initialOverlay ⟨0, 0, 50, 50⟩)
        ⟨5, 5, 60, 60⟩).scene := by
  constructor
  · decide
  · decide

/-- C4 (amended): at every reachable canvas state at most one crop region
exists; while a crop already exists, crop-tool gestures are ignored, so the
existing (old) crop stays the only one; and a committed crop above the
threshold when none exists installs exactly one crop region. -/
theorem crop_exclusive (c : OverlayCanvas) (g : RectGeom) (h : CReachable c) :
    cropCount c ≤ 1 ∧
    (c.hasCrop = true → cropGesture c g = c) ∧
    (c.hasCrop = false → g.width > 10 → g.height > 10 →
      (cropGesture c g).scene.filter isCropOverlay =
        [SceneObj.cropOverlayObj g] ∧
      (cropGesture c g).hasCrop = true) := by
  obtain ⟨ih1, ih2, ih3⟩ := creachable_inv h
  refine ⟨?_, ?_, ?_⟩
  · unfold cropCount
    cases hov : c.cropOverlay with
    | none => rw [ih3 hov]; simp
    | some o => rw [ih2 o hov]; simp
  · intro hc
    unfold cropGesture
    rw [hc]
    simp
  · intro hcf hw hh
    have hnone : c.cropOverlay = none := by
      cases hov : c.cropOverlay with
      | none => rfl
      | some o =>
          exfalso
          have : c.hasCrop = true := ih1.mpr (by simp [hov])
          rw [hcf] at this
          exact Bool.noConfusion this
    unfold cropGesture
    rw [hcf]
    simp only [Bool.false_eq_true, if_false]
    rw [if_pos ⟨hw, hh⟩, hnone]
    dsimp only
    refine ⟨?_, rfl⟩
    rw [List.filter_append, ih3 hnone]
    simp [isCropOverlay]

/-- C4 witness: the amended statement at concrete inputs — a second gesture
on the state holding one 50×50 crop is a no-op, and an initial 50×50 crop
gesture on the fresh canvas installs exactly that crop. -/
theorem crop_exclusive_witness :
    cropCount (cropGesture initialOverlay ⟨0, 0, 50, 50⟩) ≤ 1 ∧
    cropGesture (cropGesture initialOverlay ⟨0, 0, 50, 50⟩) ⟨5, 5, 60, 60⟩ =
      cropGesture initialOverlay ⟨0, 0, 50, 50⟩ ∧
    (cropGesture initialOverlay ⟨0, 0, 50, 50⟩).scene.filter isCropOverlay =
      [SceneObj.cropOverlayObj ⟨0, 0, 50, 50⟩] := by
  have h1 := crop_exclusive (cropGesture initialOverlay ⟨0, 0, 50, 50⟩)
    ⟨5, 5, 60, 60⟩ (CReachable.crop ⟨0, 0, 50, 50⟩ CReachable.init)
  have h2 := crop_exclusive initialOverlay ⟨0, 0, 50, 50⟩ CReachable.init
  refine ⟨h1.1, h1.2.1 ?_, (h2.2.2 rfl (by norm_num) (by norm_num)).1⟩
  decide

/-! ## Claim theorems: blur fallback and export dimensions -/

/-- C9: whenever the background region cannot be rasterized — the image-mode
branch is unavailable or its extraction pipeline returned null/threw, and
likewise for the screen-capture branch — `createBlurRect` returns the
semi-transparent gray `rgba(128,128,128,0.7)` placeholder rectangle at the
requested geometry instead of failing, so the blur commit always yields an
object. -/
theorem blur_fallback_placeholder (x y w h : ℚ) (style : BlurStyle)
    (intensity : Nat) (ima : Bool) (imr : Option Nat) (capa : Bool)
    (capr : Option Nat)
    (h1 : ima = false ∨ imr = none) (h2 : capa = false ∨ capr = none) :
    createBlurRect x y w h style intensity ima imr capa capr =
      SceneObj.blurPlaceholder ⟨x, y, w, h⟩ ⟨128, 128, 128, 7/10⟩
        style intensity := by
  cases ima <;> cases imr <;> cases capa <;> cases capr <;>
    first
      | rfl
      | (rcases h1 with h1 | h1 <;> rcases h2 with h2 | h2 <;> simp_all)

/-- C9 witness: the placeholder at a concrete geometry with no capture
source available. -/
theorem blur_fallback_placeholder_witness :
    createBlurRect 1 2 30 40 BlurStyle.gaussian 5 false none false none =
      SceneObj.blurPlaceholder ⟨1, 2, 30, 40⟩ ⟨128, 128, 128, 7/10⟩
        BlurStyle.gaussian 5 :=
  blur_fallback_placeholder 1 2 30 40 BlurStyle.gaussian 5 false none
    false none (Or.inl rfl) (Or.inl rfl)

/-- C8 counterexample: with the crop bounds (10,10,100,50) present, the
standard export path on a devicePixelRatio-2 display produces a 200×100
raster, and an image-mode export of an 800×600 source ignores the crop
bounds entirely and produces an 800×600 raster — neither is the claimed
100×50. -/
theorem export_crop_dims_cex :
    outputRasterDims SavePath.standard (some ⟨10, 10, 100, 50⟩) 2 1920 1080 =
      (200, 100) ∧
    outputRasterDims SavePath.standard (some ⟨10, 10, 100, 50⟩) 2 1920 1080 ≠
      (100, 50) ∧
    outputRasterDims (SavePath.imageMode 800 600) (some ⟨10, 10, 100, 50⟩)
        1 1920 1080 = (800, 600) ∧
    exportRegion (SavePath.imageMode 800 600) (some ⟨10, 10, 100, 50⟩)
        1920 1080 = ⟨0, 0, 800, 600⟩ := by
  refine ⟨?_, ?_, ?_, ?_⟩ <;>
    norm_num [outputRasterDims, exportRegion, exportMultiplier]

/-- C8 (amended): on the non-image-mode export paths, rasterization is
restricted to the crop bounds (10,10,100,50); the with-background path
(multiplier 1) outputs exactly 100×50 pixels, while the standard path
outputs 100×50 scaled by the devicePixelRatio multiplier; the image-mode
path ignores the crop bounds and renders at the original image size. -/
theorem export_crop_dims (dpr cw ch ow oh : ℚ) (hd : dpr ≠ 0) :
    exportRegion SavePath.withBackground (some ⟨10, 10, 100, 50⟩) cw ch =
      ⟨10, 10, 100, 50⟩ ∧
    outputRasterDims SavePath.withBackground (some ⟨10, 10, 100, 50⟩)
        dpr cw ch = (100, 50) ∧
    exportRegion SavePath.standard (some ⟨10, 10, 100, 50⟩) cw ch =
      ⟨10, 10, 100, 50⟩ ∧
    outputRasterDims SavePath.standard (some ⟨10, 10, 100, 50⟩) dpr cw ch =
      (100 * dpr, 50 * dpr) ∧
    exportRegion (SavePath.imageMode ow oh) (some ⟨10, 10, 100, 50⟩) cw ch =
      ⟨0, 0, ow, oh⟩ := by
  have hb : ((⟨10, 10, 100, 50⟩ : Bounds).width > 0 ∧
      (⟨10, 10, 100, 50⟩ : Bounds).height > 0) := by norm_num
  refine ⟨?_, ?_, ?_, ?_, rfl⟩
  · simp only [exportRegion]
    rw [if_pos hb]
  · simp only [outputRasterDims, exportRegion, exportMultiplier]
    rw [if_pos hb]
    norm_num
  · simp only [exportRegion]
    rw [if_pos hb]
  · simp only [outputRasterDims, exportRegion, exportMultiplier]
    rw [if_pos hb, if_neg hd]

/-- C8 witness: the amended statement at devicePixelRatio 1 on a 1920×1080
canvas with an 800×600 image-mode source; in particular the with-background
export is exactly 100×50. -/
theorem export_crop_dims_witness :
    exportRegion SavePath.withBackground (some ⟨10, 10, 100, 50⟩) 1920 1080 =
      ⟨10, 10, 100, 50⟩ ∧
    outputRasterDims SavePath.withBackground (some ⟨10, 10, 100, 50⟩)
        1 1920 1080 = (100, 50) ∧
    exportRegion SavePath.standard (some ⟨10, 10, 100, 50⟩) 1920 1080 =
      ⟨10, 10, 100, 50⟩ ∧
    outputRasterDims SavePath.standard (some ⟨10, 10, 100, 50⟩) 1 1920 1080 =
      (100 * 1, 50 * 1) ∧
    exportRegion (SavePath.imageMode 800 600) (some ⟨10, 10, 100, 50⟩)
        1920 1080 = ⟨0, 0, 800, 600⟩ :=
  export_crop_dims 1 1920 1080 800 600 (by norm_num)

end VideoAnnotator
